import Mathlib

/-!
Verification development for the extraction-and-load engine of the
DeFi-Pipeline-PoC repository.  The Python functions of `src/extract/` are
shallowly embedded as executable Lean definitions, and the claims of the
natural-language specification are settled as theorems about those
definitions.
-/

namespace DefiPipeline

/-!
### Loader model — `src/extract/loader.py`, `PostgresLoader.upsert`

A DataFrame row / SQL table row is modelled positionally: a list of cell
values (strings), one per column, with every row of one table sharing one
column list.  The `conflict_columns` argument is modelled as a Boolean mask
`isKey` aligned with the column list: `isKey[i] = true` iff column `i` is one
of the conflict-key columns.  (The Python code names columns; under the
claims' well-formedness hypothesis — conflict columns are a subset of the
DataFrame's columns — the mask carries the same information.)
-/

abbrev Row := List String

abbrev Table := List Row

/-- The conflict-key projection of a row: the cells sitting in key columns. -/
def rowKey (isKey : List Bool) (r : Row) : List String :=
  (List.zip isKey r).filterMap (fun p => if p.1 then some p.2 else none)

/-- `DO UPDATE SET "c" = EXCLUDED."c"` for every non-key column: key cells
keep the matched target row's value, non-key cells take the staged row's
value. -/
def updateNonKey (isKey : List Bool) (old nw : Row) : Row :=
  (List.zip isKey (List.zip old nw)).map (fun p => if p.1 then p.2.1 else p.2.2)

/-- One staged row processed by `INSERT ... ON CONFLICT (key) DO UPDATE`:
if a target row matches on the conflict key, the matching rows' non-key
columns are overwritten with the staged values; otherwise the staged row is
inserted. -/
def mergeRow (isKey : List Bool) (tbl : Table) (r : Row) : Table :=
  if ∃ t ∈ tbl, rowKey isKey t = rowKey isKey r then
    tbl.map (fun t => if rowKey isKey t = rowKey isKey r then updateNonKey isKey t r else t)
  else
    tbl ++ [r]

/-- The `INSERT ... ON CONFLICT (key) DO UPDATE` statement: staged rows are
merged into the target table one after the other. -/
def upsertMerge (isKey : List Bool) (tbl : Table) (df : Table) : Table :=
  df.foldl (mergeRow isKey) tbl

/-- The `INSERT ... ON CONFLICT (key) DO NOTHING` statement (taken when every
DataFrame column is a conflict column, so `update_cols` is empty): staged
rows whose key already occurs are skipped. -/
def insertIgnore (isKey : List Bool) (tbl : Table) (df : Table) : Table :=
  df.foldl
    (fun acc r =>
      if ∃ t ∈ acc, rowKey isKey t = rowKey isKey r then acc else acc ++ [r])
    tbl

/-- `temp_table = f"_temp_{table}_{int(datetime.utcnow().timestamp())}"`.
The wall clock is modelled in integer microseconds since the epoch (the
resolution of Python's `datetime`); `int(...)` applied to the float seconds
timestamp truncates to whole seconds, i.e. `tsMicros / 1000000`. -/
def tempName (table : String) (tsMicros : Nat) : String :=
  "_temp_" ++ table ++ "_" ++ Nat.repr (tsMicros / 1000000)

/-- The store-side effects `upsert` performs, in order: the `df.to_sql` bulk
write into the staging table, the optional merge statement into the target
table (`doUpdate = true` for `DO UPDATE`, `false` for `DO NOTHING`), and the
`DROP TABLE` of the staging table. -/
inductive DbOp where
  | toSqlTemp (name : String) (rows : Nat)
  | execInsert (target : String) (doUpdate : Bool)
  | dropTemp (name : String)
deriving DecidableEq, Repr

structure UpsertResult where
  table : Table
  returned : Nat
  ops : List DbOp
deriving DecidableEq, Repr

/-- `PostgresLoader.upsert(df, table, conflict_columns, schema)` acting on the
current contents `tbl` of the target table, at wall-clock time `tsMicros`.
Mirrors `src/extract/loader.py` lines 40-104: empty DataFrame short-circuits
with 0; otherwise the rows are staged, the merge statement is executed only
when `conflict_columns` is truthy (`isKey.contains true` — a nonempty
conflict-column list — under the subset encoding), with `DO UPDATE` when some
DataFrame column is not a key column (`update_cols` nonempty,
`isKey.contains false`) and `DO NOTHING` otherwise; the staging table is
dropped and `len(df)` returned. -/
def upsert (df : Table) (table : String) (conflict : Option (List Bool))
    (tbl : Table) (tsMicros : Nat) : UpsertResult :=
  if df = [] then ⟨tbl, 0, []⟩
  else
    let tmp := tempName table tsMicros
    match conflict with
    | none => ⟨tbl, df.length, [DbOp.toSqlTemp tmp df.length, DbOp.dropTemp tmp]⟩
    | some isKey =>
      if isKey.contains true then
        if isKey.contains false then
          ⟨upsertMerge isKey tbl df, df.length,
            [DbOp.toSqlTemp tmp df.length, DbOp.execInsert table true,
             DbOp.dropTemp tmp]⟩
        else
          ⟨insertIgnore isKey tbl df, df.length,
            [DbOp.toSqlTemp tmp df.length, DbOp.execInsert table false,
             DbOp.dropTemp tmp]⟩
      else
        ⟨tbl, df.length, [DbOp.toSqlTemp tmp df.length, DbOp.dropTemp tmp]⟩

/-!
### Retry model — `src/extract/base_extractor.py`, `_make_request`

`_make_request` is wrapped by tenacity's
`@retry(retry=retry_if_exception_type((requests.Timeout, requests.ConnectionError)),
        wait=wait_exponential(multiplier=1, min=2, max=30),
        stop=stop_after_attempt(settings.max_retries), reraise=True)`.
Inside the body, `response.raise_for_status()` raises `requests.HTTPError`
for any 4xx/5xx status (including 429 and 500), and `response.json()` raises
on a malformed body; neither exception type is in the retry predicate.
-/

inductive ReqError where
  | timeout
  | connectionError
  | httpError (status : Nat)
  | malformed
deriving DecidableEq, Repr

/-- `retry_if_exception_type((requests.Timeout, requests.ConnectionError))`:
exactly these two exception classes are classified retryable. -/
def retryable : ReqError → Bool
  | ReqError.timeout => true
  | ReqError.connectionError => true
  | _ => false

/-- `settings.max_retries` default value (`src/extract/config.py` line 28). -/
def maxRetriesDefault : Nat := 3

/-- `wait_exponential(multiplier=1, min=2, max=30)`: the number of seconds
slept after failing attempt `k` (1-based) before attempt `k + 1`. -/
def waitExponentialDelay (k : Nat) : Nat := min 30 (max 2 (2 ^ k))

/-- The retry loop of the tenacity decorator.  `call i` is the outcome of the
`i`-th underlying HTTP attempt (0-based); `remaining` is the number of
attempts still allowed (`stop_after_attempt` bound minus attempts already
made).  An attempt is always made; on a retryable failure another attempt
follows only while more than one attempt remains; otherwise the last
exception is re-raised unchanged (`reraise=True`).  Returns the final
outcome and the total number of underlying attempts made. -/
def retryFrom (call : Nat → Except ReqError α) : Nat → Nat → Except ReqError α × Nat
  | 0, i =>
    match call i with
    | Except.ok v => (Except.ok v, i + 1)
    | Except.error e => (Except.error e, i + 1)
  | 1, i =>
    match call i with
    | Except.ok v => (Except.ok v, i + 1)
    | Except.error e => (Except.error e, i + 1)
  | r + 2, i =>
    match call i with
    | Except.ok v => (Except.ok v, i + 1)
    | Except.error e =>
      if retryable e then retryFrom call (r + 1) (i + 1)
      else (Except.error e, i + 1)

/-- `_make_request` under the decorator with attempt cap `maxAttempts`
(`settings.max_retries`): outcome plus number of underlying attempts. -/
def makeRequest (call : Nat → Except ReqError α) (maxAttempts : Nat) :
    Except ReqError α × Nat :=
  retryFrom call maxAttempts 0

/-!
### Pagination model — `src/extract/etherscan_extractor.py`,
`extract_transactions` (lines 75-133)

Only the fields pagination reads are modelled on a raw transaction.  The
`while True` loop is given fuel (strictly more iterations than any input
exercised needs); `none` means the fuel ran out, `some` is the value the
Python loop produces.  Each iteration counts one `_make_request` call.
-/

structure RawTx where
  hash : String
  blockNumber : Nat
deriving DecidableEq, Repr

/-- Outcome of `self._make_request("", params=params)` for one page:
either the call raised (`exn` — any exception, after the retry layer gave
up) or it returned a payload with a `status` field, a `message` field and a
`result` list. -/
inductive FetchOutcome where
  | exn
  | resp (status : String) (message : String) (result : List RawTx)
deriving DecidableEq, Repr

/-- The pagination loop body, mirrored branch for branch:
an exception is caught, logged and breaks the loop (returning what was
gathered); a payload with `status != "1"` breaks (both the
"No transactions found" and the hard-API-error branch only differ in what
they log); an empty `result` breaks; a short page (fewer than `pageSize`
items) is appended and breaks; a full page is appended and the loop
continues from `int(results[-1]["blockNumber"]) + 1`. -/
def extractLoop (fetch : Nat → Nat → FetchOutcome) (pageSize : Nat) :
    Nat → Nat → Nat → List RawTx → Nat → Option (List RawTx × Nat)
  | 0, _, _, _, _ => none
  | fuel + 1, curBlock, page, acc, calls =>
    match fetch curBlock page with
    | FetchOutcome.exn => some (acc, calls + 1)
    | FetchOutcome.resp status _ result =>
      if status ≠ "1" then some (acc, calls + 1)
      else if result = [] then some (acc, calls + 1)
      else if result.length < pageSize then some (acc ++ result, calls + 1)
      else
        extractLoop fetch pageSize fuel ((result.getLastD ⟨"", 0⟩).blockNumber + 1)
          (page + 1) (acc ++ result) (calls + 1)

/-- `extract_transactions` pagination: starts at `start_block` with page 1
and an empty accumulator. -/
def extractTransactions (fetch : Nat → Nat → FetchOutcome) (pageSize startBlock : Nat)
    (fuel : Nat) : Option (List RawTx × Nat) :=
  extractLoop fetch pageSize fuel startBlock 1 [] 0

/-!
### DataFrame de-duplication — `df.drop_duplicates(subset=[...])`

`src/extract/etherscan_extractor.py` line 170 and
`src/extract/dune_extractor.py` line 156 call pandas `drop_duplicates` with
a `subset` key and the default `keep="first"`.
-/

/-- pandas `DataFrame.drop_duplicates(subset=key)` with the default
`keep="first"`: scan in order, keeping a row iff its key has not been seen
before. -/
def dropDuplicatesAux (key : α → κ) [DecidableEq κ] : List α → List κ → List α
  | [], _ => []
  | x :: xs, seen =>
    if key x ∈ seen then dropDuplicatesAux key xs seen
    else x :: dropDuplicatesAux key xs (key x :: seen)

def dropDuplicates (key : α → κ) [DecidableEq κ] (l : List α) : List α :=
  dropDuplicatesAux key l []

/-- Spec-side description (as amended): a row is kept exactly when no
already-kept row shares its conflict key, so per key the first-occurring
row survives. -/
def keepFirstOccurrencePerKey (key : α → κ) [DecidableEq κ] (l : List α) : List α :=
  l.foldl
    (fun acc x => if (∃ y ∈ acc, key y = key x) then acc else acc ++ [x]) []

/-!
### Orchestrator model — `src/extract/run_extraction.py`

`_run_extractor` (lines 51-80) and the `run` command loop (lines 117-138).
The store is the Postgres database: one table per target name plus the
`raw._pipeline_runs` audit table.  `loaderPresent = false` models the
dry-run call `_run_extractor(extractor, None, name)`; every
`loader.log_run` / `loader.upsert` attribute access on `None` raises
`AttributeError`, modelled as `Except.error`.  (In the non-empty branch the
`loader.upsert` AttributeError is caught by the `except` handler, whose own
`loader.log_run` then raises — so the exception that escapes is always the
`log_run` one.)
-/

structure RunLogEntry where
  name : String
  status : String
  rowsExtracted : Nat
  rowsLoaded : Nat
  errorMessage : Option String
deriving DecidableEq, Repr

/-- The per-source result dict `{"source": ..., "status": ..., "rows": ...}`
(with the optional `"error"` key). -/
structure SourceResult where
  source : String
  status : String
  rows : Nat
  errorMessage : Option String
deriving DecidableEq, Repr

/-- What `extractor.extract()` (followed by `validate`, which only logs)
does on this run: return a DataFrame or raise. -/
inductive ExtractOutcome where
  | rows (df : Table)
  | exn (msg : String)
deriving DecidableEq, Repr

structure SourceSpec where
  outcome : ExtractOutcome
  targetTable : String
deriving DecidableEq, Repr

structure Store where
  tables : List (String × Table)
  runLog : List RunLogEntry
deriving DecidableEq, Repr

def getTable (st : Store) (t : String) : Table :=
  (st.tables.lookup t).getD []

def setAssoc : List (String × Table) → String → Table → List (String × Table)
  | [], t, tbl => [(t, tbl)]
  | (k, v) :: rest, t, tbl =>
    if k = t then (k, tbl) :: rest else (k, v) :: setAssoc rest t tbl

def setTable (st : Store) (t : String) (tbl : Table) : Store :=
  { st with tables := setAssoc st.tables t tbl }

/-- `loader.log_run(...)`: a best-effort insert into `raw._pipeline_runs`
(its own exceptions are caught and logged, so it never raises). -/
def logRun (st : Store) (e : RunLogEntry) : Store :=
  { st with runLog := st.runLog ++ [e] }

/-- `needle` occurs at the head of `l`. -/
def headMatches [DecidableEq α] : List α → List α → Bool
  | [], _ => true
  | _ :: _, [] => false
  | a :: as, b :: bs => a = b && headMatches as bs

/-- `needle` occurs contiguously somewhere in `l`. -/
def containsSeq [DecidableEq α] (needle : List α) : List α → Bool
  | [] => headMatches needle []
  | b :: bs => headMatches needle (b :: bs) || containsSeq needle bs

/-- `"failed" in r["status"]` — the substring test the `run` command applies
to each result's status string. -/
def containsFailed (s : String) : Bool :=
  containsSeq "failed".data s.data

/-- `_run_extractor(extractor, loader, source_name)` acting on the store,
with `conflictMap` the positional-mask rendering of the literal
`conflict_map` dict (lines 63-70; `conflict_map.get(source_name)` is `None`
for names absent from it). -/
def runExtractor (loaderPresent : Bool) (conflictMap : List (String × List Bool))
    (store : Store) (name : String) (src : SourceSpec) (ts : Nat) :
    Except String (Store × SourceResult) :=
  match src.outcome with
  | ExtractOutcome.exn msg =>
    if loaderPresent then
      Except.ok (logRun store ⟨name, "failed", 0, 0, some msg⟩,
        ⟨name, "❌ failed", 0, some msg⟩)
    else
      Except.error "AttributeError: NoneType object has no attribute log_run"
  | ExtractOutcome.rows df =>
    if df = [] then
      if loaderPresent then
        Except.ok (logRun store ⟨name, "partial", 0, 0, none⟩,
          ⟨name, "⚠️ empty", 0, none⟩)
      else
        Except.error "AttributeError: NoneType object has no attribute log_run"
    else
      if loaderPresent then
        let res := upsert df src.targetTable (conflictMap.lookup name)
          (getTable store src.targetTable) ts
        let st1 := setTable store src.targetTable res.table
        Except.ok (logRun st1 ⟨name, "success", df.length, res.returned, none⟩,
          ⟨name, "✅ success", res.returned, none⟩)
      else
        Except.error "AttributeError: NoneType object has no attribute log_run"

/-- The `for name, extractor in extractors_to_run.items()` loop: an uncaught
exception from `_run_extractor` propagates and aborts the remaining
sources. -/
def runLoop (loaderPresent : Bool) (conflictMap : List (String × List Bool))
    (store : Store) (ts : Nat) :
    List (String × SourceSpec) → Except String (Store × List SourceResult)
  | [] => Except.ok (store, [])
  | (name, src) :: rest =>
    match runExtractor loaderPresent conflictMap store name src ts with
    | Except.error e => Except.error e
    | Except.ok (store1, r) =>
      match runLoop loaderPresent conflictMap store1 ts rest with
      | Except.error e => Except.error e
      | Except.ok (store2, rs) => Except.ok (store2, r :: rs)

structure RunSummary where
  store : Store
  results : List SourceResult
  exitFailure : Bool
deriving DecidableEq, Repr

/-- The `run` command (lines 84-138) on the already-selected sources:
`loader if not dry_run else None` is passed down, the per-source results are
collected, and the exit is a failure (`typer.Exit(1)`) iff some result's
status contains `"failed"`. -/
def pipelineRun (conflictMap : List (String × List Bool))
    (sources : List (String × SourceSpec)) (dryRun : Bool) (store : Store)
    (ts : Nat) : Except String RunSummary :=
  match runLoop (!dryRun) conflictMap store ts sources with
  | Except.error e => Except.error e
  | Except.ok (st, results) =>
    Except.ok ⟨st, results, results.any (fun r => containsFailed r.status)⟩

/-! #### Lemmas about the merge semantics -/

theorem rowKey_nil_left (r : Row) : rowKey [] r = [] := rfl

theorem rowKey_nil_right (isKey : List Bool) : rowKey isKey [] = [] := by
  cases isKey <;> rfl

theorem rowKey_cons (k : Bool) (ks : List Bool) (x : String) (xs : Row) :
    rowKey (k :: ks) (x :: xs) =
      if k then x :: rowKey ks xs else rowKey ks xs := by
  cases k <;> simp [rowKey, List.zip_cons_cons]

theorem updateNonKey_cons (k : Bool) (ks : List Bool) (x y : String)
    (xs ys : Row) :
    updateNonKey (k :: ks) (x :: xs) (y :: ys) =
      (if k then x else y) :: updateNonKey ks xs ys := by
  cases k <;> simp [updateNonKey, List.zip_cons_cons]

theorem updateNonKey_length (isKey : List Bool) (a b : Row) :
    (updateNonKey isKey a b).length = min isKey.length (min a.length b.length) := by
  simp [updateNonKey]

theorem updateNonKey_self (isKey : List Bool) (a : Row)
    (h : a.length = isKey.length) : updateNonKey isKey a a = a := by
  induction isKey generalizing a with
  | nil =>
    cases a with
    | nil => rfl
    | cons x xs => simp at h
  | cons k ks ih =>
    cases a with
    | nil => simp at h
    | cons x xs =>
      simp only [List.length_cons, Nat.succ.injEq] at h
      rw [updateNonKey_cons, ih xs h]
      cases k <;> simp

theorem rowKey_updateNonKey (isKey : List Bool) (a b : Row)
    (ha : a.length = isKey.length) (hb : b.length = isKey.length) :
    rowKey isKey (updateNonKey isKey a b) = rowKey isKey a := by
  induction isKey generalizing a b with
  | nil => cases a <;> cases b <;> simp [updateNonKey, rowKey_nil_left]
  | cons k ks ih =>
    cases a with
    | nil => simp at ha
    | cons x xs =>
      cases b with
      | nil => simp at hb
      | cons y ys =>
        simp only [List.length_cons, Nat.succ.injEq] at ha hb
        rw [updateNonKey_cons]
        cases k <;> simp [rowKey_cons, ih xs ys ha hb]

theorem updateNonKey_updateNonKey (isKey : List Bool) (a b : Row) :
    updateNonKey isKey (updateNonKey isKey a b) b = updateNonKey isKey a b := by
  induction isKey generalizing a b with
  | nil => simp [updateNonKey]
  | cons k ks ih =>
    cases a with
    | nil => simp [updateNonKey]
    | cons x xs =>
      cases b with
      | nil => simp [updateNonKey]
      | cons y ys =>
        rw [updateNonKey_cons]
        cases k <;> simp [updateNonKey_cons, ih xs ys]

/-- All rows of a table have the width of the column list (the mask). -/
def rowsLen (isKey : List Bool) (tbl : Table) : Prop :=
  ∀ t ∈ tbl, t.length = isKey.length

/-- Some target row matches `r` on the conflict key. -/
def keyPresent (isKey : List Bool) (tbl : Table) (r : Row) : Prop :=
  ∃ t ∈ tbl, rowKey isKey t = rowKey isKey r

/-- Every target row matching `r` on the conflict key already carries `r`'s
non-key values, so a `DO UPDATE` from `r` leaves it unchanged. -/
def keySettled (isKey : List Bool) (tbl : Table) (r : Row) : Prop :=
  ∀ t ∈ tbl, rowKey isKey t = rowKey isKey r → updateNonKey isKey t r = t

theorem mergeRow_rowsLen {isKey : List Bool} {tbl : Table} {r : Row}
    (htbl : rowsLen isKey tbl) (hr : r.length = isKey.length) :
    rowsLen isKey (mergeRow isKey tbl r) := by
  unfold mergeRow
  split
  · intro t' ht'
    obtain ⟨t, ht, rfl⟩ := List.mem_map.mp ht'
    split
    · rw [updateNonKey_length, htbl t ht, hr]
      simp
    · exact htbl t ht
  · intro t' ht'
    rcases List.mem_append.mp ht' with h | h
    · exact htbl t' h
    · simp only [List.mem_singleton] at h
      exact h ▸ hr

theorem mergeRow_keyPresent_self {isKey : List Bool} {tbl : Table} {r : Row}
    (htbl : rowsLen isKey tbl) (hr : r.length = isKey.length) :
    keyPresent isKey (mergeRow isKey tbl r) r := by
  unfold mergeRow
  split
  · rename_i h
    obtain ⟨t, ht, heq⟩ := h
    refine ⟨updateNonKey isKey t r, ?_, ?_⟩
    · refine List.mem_map.mpr ⟨t, ht, ?_⟩
      rw [if_pos heq]
    · rw [rowKey_updateNonKey isKey t r (htbl t ht) hr, heq]
  · exact ⟨r, by simp, rfl⟩

theorem mergeRow_keySettled_self {isKey : List Bool} {tbl : Table} {r : Row}
    (_htbl : rowsLen isKey tbl) (hr : r.length = isKey.length) :
    keySettled isKey (mergeRow isKey tbl r) r := by
  unfold mergeRow
  split
  · intro t' ht' _
    obtain ⟨t, _, rfl⟩ := List.mem_map.mp ht'
    by_cases hk : rowKey isKey t = rowKey isKey r
    · rw [if_pos hk, updateNonKey_updateNonKey]
    · rename_i hkey
      rw [if_neg hk] at hkey ⊢
      exact absurd hkey hk
  · intro t' ht' hkey
    rcases List.mem_append.mp ht' with h | h
    · rename_i hno
      exact absurd ⟨t', h, hkey⟩ hno
    · simp only [List.mem_singleton] at h
      rw [h]
      exact updateNonKey_self isKey r hr

theorem mergeRow_keyPresent_mono {isKey : List Bool} {tbl : Table} {r r' : Row}
    (htbl : rowsLen isKey tbl) (hr' : r'.length = isKey.length)
    (hpres : keyPresent isKey tbl r) :
    keyPresent isKey (mergeRow isKey tbl r') r := by
  obtain ⟨t, ht, heq⟩ := hpres
  unfold mergeRow
  split
  · refine ⟨if rowKey isKey t = rowKey isKey r' then updateNonKey isKey t r' else t,
      List.mem_map.mpr ⟨t, ht, rfl⟩, ?_⟩
    split
    · rw [rowKey_updateNonKey isKey t r' (htbl t ht) hr', heq]
    · exact heq
  · exact ⟨t, List.mem_append.mpr (Or.inl ht), heq⟩

theorem mergeRow_keySettled_other {isKey : List Bool} {tbl : Table} {r r' : Row}
    (htbl : rowsLen isKey tbl) (hr' : r'.length = isKey.length)
    (hne : rowKey isKey r ≠ rowKey isKey r')
    (hset : keySettled isKey tbl r) :
    keySettled isKey (mergeRow isKey tbl r') r := by
  unfold mergeRow
  split
  · intro t' ht' hkey
    obtain ⟨t, ht, rfl⟩ := List.mem_map.mp ht'
    by_cases hk : rowKey isKey t = rowKey isKey r'
    · rw [if_pos hk] at hkey ⊢
      rw [rowKey_updateNonKey isKey t r' (htbl t ht) hr', hk] at hkey
      exact absurd hkey.symm hne
    · rw [if_neg hk] at hkey ⊢
      exact hset t ht hkey
  · intro t' ht' hkey
    rcases List.mem_append.mp ht' with h | h
    · exact hset t' h hkey
    · simp only [List.mem_singleton] at h
      subst h
      exact absurd hkey.symm hne

theorem upsertMerge_rowsLen {isKey : List Bool} (df : Table) :
    ∀ tbl : Table, rowsLen isKey tbl → (∀ x ∈ df, x.length = isKey.length) →
      rowsLen isKey (upsertMerge isKey tbl df) := by
  induction df with
  | nil => intro tbl htbl _; exact htbl
  | cons r rs ih =>
    intro tbl htbl hdf
    exact ih (mergeRow isKey tbl r)
      (mergeRow_rowsLen htbl (hdf r (by simp)))
      (fun x hx => hdf x (by simp [hx]))

theorem upsertMerge_preserve {isKey : List Bool} {r : Row} (df : Table) :
    ∀ tbl : Table, rowsLen isKey tbl → (∀ x ∈ df, x.length = isKey.length) →
      rowKey isKey r ∉ df.map (rowKey isKey) →
      keyPresent isKey tbl r → keySettled isKey tbl r →
      keyPresent isKey (upsertMerge isKey tbl df) r ∧
        keySettled isKey (upsertMerge isKey tbl df) r := by
  induction df with
  | nil => intro tbl _ _ _ hp hs; exact ⟨hp, hs⟩
  | cons r' rs ih =>
    intro tbl htbl hdf hnot hp hs
    have hr' : r'.length = isKey.length := hdf r' (by simp)
    have hne : rowKey isKey r ≠ rowKey isKey r' := by
      intro h
      exact hnot (by simp [h])
    exact ih (mergeRow isKey tbl r')
      (mergeRow_rowsLen htbl hr')
      (fun x hx => hdf x (by simp [hx]))
      (fun h => hnot (by simp at h ⊢; exact Or.inr h))
      (mergeRow_keyPresent_mono htbl hr' hp)
      (mergeRow_keySettled_other htbl hr' hne hs)

theorem upsertMerge_settles {isKey : List Bool} (df : Table) :
    ∀ tbl : Table, rowsLen isKey tbl → (∀ x ∈ df, x.length = isKey.length) →
      (df.map (rowKey isKey)).Nodup →
      ∀ r ∈ df, keyPresent isKey (upsertMerge isKey tbl df) r ∧
        keySettled isKey (upsertMerge isKey tbl df) r := by
  induction df with
  | nil => intro tbl _ _ _ r hr; exact absurd hr (List.not_mem_nil r)
  | cons r0 rs ih =>
    intro tbl htbl hdf hnd r hr
    simp only [List.map_cons, List.nodup_cons] at hnd
    have hr0 : r0.length = isKey.length := hdf r0 (by simp)
    rcases List.mem_cons.mp hr with rfl | hmem
    · exact upsertMerge_preserve rs (mergeRow isKey tbl r)
        (mergeRow_rowsLen htbl hr0)
        (fun x hx => hdf x (by simp [hx]))
        hnd.1
        (mergeRow_keyPresent_self htbl hr0)
        (mergeRow_keySettled_self htbl hr0)
    · exact ih (mergeRow isKey tbl r0)
        (mergeRow_rowsLen htbl hr0)
        (fun x hx => hdf x (by simp [hx]))
        hnd.2 r hmem

theorem mergeRow_settled_fix {isKey : List Bool} {tbl : Table} {r : Row}
    (hp : keyPresent isKey tbl r) (hs : keySettled isKey tbl r) :
    mergeRow isKey tbl r = tbl := by
  unfold mergeRow
  rw [if_pos (show ∃ t ∈ tbl, rowKey isKey t = rowKey isKey r from hp)]
  calc tbl.map (fun t => if rowKey isKey t = rowKey isKey r
          then updateNonKey isKey t r else t)
      = tbl.map id := by
        apply List.map_congr_left
        intro t ht
        by_cases hk : rowKey isKey t = rowKey isKey r
        · rw [if_pos hk, hs t ht hk, id]
        · rw [if_neg hk, id]
    _ = tbl := List.map_id tbl

theorem upsertMerge_fix {isKey : List Bool} (df : Table) :
    ∀ tbl : Table,
      (∀ r ∈ df, keyPresent isKey tbl r ∧ keySettled isKey tbl r) →
      upsertMerge isKey tbl df = tbl := by
  induction df with
  | nil => intro tbl _; rfl
  | cons r rs ih =>
    intro tbl h
    have h0 := h r (by simp)
    have hfix : mergeRow isKey tbl r = tbl := mergeRow_settled_fix h0.1 h0.2
    show upsertMerge isKey (mergeRow isKey tbl r) rs = tbl
    rw [hfix]
    exact ih tbl (fun x hx => h x (by simp [hx]))

theorem upsertMerge_idem {isKey : List Bool} {tbl df : Table}
    (htbl : rowsLen isKey tbl) (hdf : ∀ x ∈ df, x.length = isKey.length)
    (hnd : (df.map (rowKey isKey)).Nodup) :
    upsertMerge isKey (upsertMerge isKey tbl df) df = upsertMerge isKey tbl df :=
  upsertMerge_fix df (upsertMerge isKey tbl df)
    (upsertMerge_settles df tbl htbl hdf hnd)

theorem insertIgnore_append (df : Table) :
    ∀ tbl : Table, ∀ isKey : List Bool,
      ∃ extra, insertIgnore isKey tbl df = tbl ++ extra := by
  induction df with
  | nil => intro tbl isKey; exact ⟨[], by simp [insertIgnore]⟩
  | cons r rs ih =>
    intro tbl isKey
    show ∃ extra,
      insertIgnore isKey
        (if ∃ t ∈ tbl, rowKey isKey t = rowKey isKey r then tbl else tbl ++ [r]) rs
        = tbl ++ extra
    split
    · exact ih tbl isKey
    · obtain ⟨extra, hextra⟩ := ih (tbl ++ [r]) isKey
      exact ⟨[r] ++ extra, by rw [hextra, List.append_assoc]⟩

theorem keyPresent_append {isKey : List Bool} {tbl extra : Table} {r : Row}
    (h : keyPresent isKey tbl r) : keyPresent isKey (tbl ++ extra) r := by
  obtain ⟨t, ht, heq⟩ := h
  exact ⟨t, List.mem_append.mpr (Or.inl ht), heq⟩

theorem insertIgnore_presents {isKey : List Bool} (df : Table) :
    ∀ tbl : Table, ∀ r ∈ df, keyPresent isKey (insertIgnore isKey tbl df) r := by
  induction df with
  | nil => intro tbl r hr; exact absurd hr (List.not_mem_nil r)
  | cons r0 rs ih =>
    intro tbl r hr
    rcases List.mem_cons.mp hr with rfl | hmem
    · show keyPresent isKey
        (insertIgnore isKey
          (if ∃ t ∈ tbl, rowKey isKey t = rowKey isKey r then tbl else tbl ++ [r]) rs) r
      obtain ⟨extra, hextra⟩ :=
        insertIgnore_append rs
          (if ∃ t ∈ tbl, rowKey isKey t = rowKey isKey r then tbl else tbl ++ [r]) isKey
      rw [hextra]
      apply keyPresent_append
      split
      · rename_i h; exact h
      · exact ⟨r, by simp, rfl⟩
    · exact ih _ r hmem

theorem insertIgnore_fix {isKey : List Bool} (df : Table) :
    ∀ tbl : Table, (∀ r ∈ df, keyPresent isKey tbl r) →
      insertIgnore isKey tbl df = tbl := by
  induction df with
  | nil => intro tbl _; rfl
  | cons r rs ih =>
    intro tbl h
    show insertIgnore isKey
        (if ∃ t ∈ tbl, rowKey isKey t = rowKey isKey r then tbl else tbl ++ [r]) rs = tbl
    rw [if_pos (show ∃ t ∈ tbl, rowKey isKey t = rowKey isKey r from h r (by simp))]
    exact ih tbl (fun x hx => h x (by simp [hx]))

theorem insertIgnore_idem {isKey : List Bool} (tbl df : Table) :
    insertIgnore isKey (insertIgnore isKey tbl df) df = insertIgnore isKey tbl df :=
  insertIgnore_fix df (insertIgnore isKey tbl df) (insertIgnore_presents df tbl)

/-- Claim C1: for every Batch `df` whose conflict key is well-formed (the
conflict-key columns are a subset of the Batch's columns — here, the mask
`isKey` spans exactly the row width — and the key values are unique within
the Batch), calling `PostgresLoader.upsert` twice against the same target
table leaves the target table in exactly the same state as calling it
once. -/
theorem upsert_twice_leaves_table_unchanged (df tbl : Table) (tableName : String)
    (isKey : List Bool) (ts1 ts2 : Nat)
    (hdf : ∀ r ∈ df, r.length = isKey.length)
    (htbl : ∀ t ∈ tbl, t.length = isKey.length)
    (hnd : (df.map (rowKey isKey)).Nodup) :
    (upsert df tableName (some isKey)
        (upsert df tableName (some isKey) tbl ts1).table ts2).table
      = (upsert df tableName (some isKey) tbl ts1).table := by
  by_cases hdf0 : df = []
  · subst hdf0
    simp [upsert]
  · simp only [upsert, if_neg hdf0]
    by_cases ht : isKey.contains true
    · by_cases hf : isKey.contains false
      · simp only [if_pos ht, if_pos hf]
        exact upsertMerge_idem htbl hdf hnd
      · simp only [if_pos ht, if_neg hf]
        exact insertIgnore_idem tbl df
    · simp only [if_neg ht]

theorem upsert_twice_leaves_table_unchanged_witness :
    (upsert [["a", "1"], ["b", "2"]] "etherscan_transactions" (some [true, false])
        (upsert [["a", "1"], ["b", "2"]] "etherscan_transactions" (some [true, false])
          [["a", "0"], ["c", "9"]] 5).table 7).table
      = (upsert [["a", "1"], ["b", "2"]] "etherscan_transactions" (some [true, false])
          [["a", "0"], ["c", "9"]] 5).table :=
  upsert_twice_leaves_table_unchanged [["a", "1"], ["b", "2"]]
    [["a", "0"], ["c", "9"]] "etherscan_transactions" [true, false] 5 7
    (by decide) (by decide) (by decide)

/-! #### Store-table lemmas -/

theorem lookup_setAssoc_self (t : String) (v : Table) :
    ∀ l : List (String × Table), (setAssoc l t v).lookup t = some v := by
  intro l
  induction l with
  | nil => simp [setAssoc, List.lookup]
  | cons kv rest ih =>
    obtain ⟨k, w⟩ := kv
    by_cases hk : k = t
    · subst hk
      simp [setAssoc, List.lookup]
    · have : (t == k) = false := by
        simp [Ne.symm hk]
      simp [setAssoc, hk, List.lookup, this, ih]

theorem lookup_setAssoc_ne (t t' : String) (v : Table) (hne : t' ≠ t) :
    ∀ l : List (String × Table), (setAssoc l t v).lookup t' = l.lookup t' := by
  intro l
  have h0 : (t' == t) = false := by simp [hne]
  induction l with
  | nil => simp [setAssoc, List.lookup, h0]
  | cons kv rest ih =>
    obtain ⟨k, w⟩ := kv
    by_cases hk : k = t
    · subst hk
      simp [setAssoc, List.lookup, h0, ih]
    · by_cases hk' : t' = k
      · subst hk'
        simp [setAssoc, hk, List.lookup]
      · have h1 : (t' == k) = false := by simp [hk']
        simp [setAssoc, hk, List.lookup, h1, ih]

theorem getTable_setTable_same (st : Store) (t t' : String) :
    getTable (setTable st t (getTable st t)) t' = getTable st t' := by
  by_cases h : t' = t
  · subst h
    simp [getTable, setTable, lookup_setAssoc_self]
  · simp [getTable, setTable, lookup_setAssoc_ne t t' _ h]

/-! #### Claims C7, C8, C10 and C3 — orchestrator behaviour -/

/-- Claim C7: for every source whose `extract()` returns zero rows, the
orchestrator marks that source with the `empty` terminal state (distinct
from the success and failed states), performs no store write for it (no
`upsert` is reached, the data tables are untouched), and persists a run
record with `rows_extracted = 0` and `rows_loaded = 0`. -/
theorem empty_extract_marks_empty (cm : List (String × List Bool)) (store : Store)
    (name tgt : String) (ts : Nat) :
    runExtractor true cm store name ⟨ExtractOutcome.rows [], tgt⟩ ts
        = Except.ok (logRun store ⟨name, "partial", 0, 0, none⟩,
            ⟨name, "⚠️ empty", 0, none⟩)
      ∧ (logRun store ⟨name, "partial", 0, 0, none⟩).tables = store.tables
      ∧ containsFailed "⚠️ empty" = false
      ∧ "⚠️ empty" ≠ "✅ success" ∧ "⚠️ empty" ≠ "❌ failed" :=
  ⟨rfl, rfl, by decide, by decide, by decide⟩

/-- Claim C8 (code bug): a dry run passes `loader=None` into
`_run_extractor`, which still calls `loader.log_run` (and, for a non-empty
DataFrame, `loader.upsert`) on it.  Instead of completing extraction and
validation and reporting a summary without touching the loader, every
dry-run source raises `AttributeError` — whatever the extraction outcome —
and the exception aborts the whole run. -/
theorem dry_run_raises_attribute_error (cm : List (String × List Bool))
    (store : Store) (name : String) (src : SourceSpec) (ts : Nat) :
    runExtractor false cm store name src ts
      = Except.error "AttributeError: NoneType object has no attribute log_run" := by
  obtain ⟨outcome, tgt⟩ := src
  cases outcome with
  | exn msg => simp [runExtractor]
  | rows df =>
    by_cases hdf : df = [] <;> simp [runExtractor, hdf]

/-- Claim C10: calling `PostgresLoader.upsert` with `conflict_columns=None`
(its default, and what the orchestrator passes for a source name absent
from its conflict map) on a non-empty DataFrame stages the rows into a temp
table and drops it, executes no `INSERT` into the target table (the ops
trace holds exactly the staging write and the drop), leaves the target
table unchanged, and still returns the full input row count — which the
orchestrator then records as a successful load of `len(df)` rows. -/
theorem upsert_none_conflict_discards (df tbl : Table) (tgt : String) (ts : Nat)
    (cm : List (String × List Bool)) (store : Store) (name : String)
    (hdf : df ≠ []) (hcm : cm.lookup name = none) :
    upsert df tgt none tbl ts
        = ⟨tbl, df.length,
            [DbOp.toSqlTemp (tempName tgt ts) df.length,
             DbOp.dropTemp (tempName tgt ts)]⟩
      ∧ runExtractor true cm store name ⟨ExtractOutcome.rows df, tgt⟩ ts
          = Except.ok (logRun (setTable store tgt (getTable store tgt))
                ⟨name, "success", df.length, df.length, none⟩,
              ⟨name, "✅ success", df.length, none⟩)
      ∧ (∀ t', getTable (setTable store tgt (getTable store tgt)) t'
            = getTable store t') := by
  refine ⟨by simp [upsert, hdf], ?_, fun t' => getTable_setTable_same store tgt t'⟩
  simp [runExtractor, hdf, hcm, upsert]

theorem upsert_none_conflict_discards_witness :
    upsert [["a", "1"]] "dune_wallet_labels" none [["b", "2"]] 3
        = ⟨[["b", "2"]], 1,
            [DbOp.toSqlTemp (tempName "dune_wallet_labels" 3) 1,
             DbOp.dropTemp (tempName "dune_wallet_labels" 3)]⟩
      ∧ runExtractor true [] ⟨[], []⟩ "dune" ⟨ExtractOutcome.rows [["a", "1"]], "dune_wallet_labels"⟩ 3
          = Except.ok (logRun (setTable ⟨[], []⟩ "dune_wallet_labels" (getTable ⟨[], []⟩ "dune_wallet_labels"))
                ⟨"dune", "success", 1, 1, none⟩,
              ⟨"dune", "✅ success", 1, none⟩)
      ∧ (∀ t', getTable (setTable ⟨[], []⟩ "dune_wallet_labels" (getTable ⟨[], []⟩ "dune_wallet_labels")) t'
            = getTable ⟨[], []⟩ t') :=
  upsert_none_conflict_discards [["a", "1"]] [["b", "2"]] "dune_wallet_labels" 3
    [] ⟨[], []⟩ "dune" (by decide) (by decide)

/-- Claim C3, counterexample: a dry run is a run over a selected set of
sources; with two sources selected and the first failing, the
`AttributeError` raised inside `_run_extractor`'s `except` handler
(`loader.log_run` on `None`) propagates out of the `for` loop, so the
second source never runs and no summary (and no exit status derived from
per-source results) is produced — the run ends in an uncaught exception. -/
theorem run_summary_counterexample :
    pipelineRun []
        [("etherscan", ⟨ExtractOutcome.exn "boom", "etherscan_transactions"⟩),
         ("defillama", ⟨ExtractOutcome.rows [["x"]], "defillama_tvl"⟩)]
        true ⟨[], []⟩ 0
      = Except.error "AttributeError: NoneType object has no attribute log_run" := by
  rfl

theorem runExtractor_loader_ok (cm : List (String × List Bool)) (store : Store)
    (name : String) (src : SourceSpec) (ts : Nat) :
    ∃ st r, runExtractor true cm store name src ts = Except.ok (st, r)
      ∧ r.source = name
      ∧ (containsFailed r.status = true ↔ ∃ msg, src.outcome = ExtractOutcome.exn msg) := by
  obtain ⟨outcome, tgt⟩ := src
  cases outcome with
  | exn msg =>
    refine ⟨logRun store ⟨name, "failed", 0, 0, some msg⟩,
      ⟨name, "❌ failed", 0, some msg⟩, rfl, rfl, ?_⟩
    show containsFailed "❌ failed" = true ↔ ∃ m, ExtractOutcome.exn msg = ExtractOutcome.exn m
    constructor
    · intro _
      exact ⟨msg, rfl⟩
    · intro _
      decide
  | rows df =>
    by_cases hdf : df = []
    · subst hdf
      refine ⟨logRun store ⟨name, "partial", 0, 0, none⟩,
        ⟨name, "⚠️ empty", 0, none⟩, rfl, rfl, ?_⟩
      show containsFailed "⚠️ empty" = true
        ↔ ∃ m, ExtractOutcome.rows [] = ExtractOutcome.exn m
      constructor
      · intro h
        exact absurd h (by decide)
      · rintro ⟨msg, hmsg⟩
        exact ExtractOutcome.noConfusion hmsg
    · refine ⟨logRun
          (setTable store tgt (upsert df tgt (cm.lookup name) (getTable store tgt) ts).table)
          ⟨name, "success", df.length,
            (upsert df tgt (cm.lookup name) (getTable store tgt) ts).returned, none⟩,
        ⟨name, "✅ success",
          (upsert df tgt (cm.lookup name) (getTable store tgt) ts).returned, none⟩,
        by simp [runExtractor, hdf], rfl, ?_⟩
      show containsFailed "✅ success" = true
        ↔ ∃ m, ExtractOutcome.rows df = ExtractOutcome.exn m
      constructor
      · intro h
        exact absurd h (by decide)
      · rintro ⟨msg, hmsg⟩
        exact ExtractOutcome.noConfusion hmsg

theorem runLoop_loader_ok (cm : List (String × List Bool)) (ts : Nat) :
    ∀ (sources : List (String × SourceSpec)) (store : Store),
      ∃ st results, runLoop true cm store ts sources = Except.ok (st, results)
        ∧ results.length = sources.length
        ∧ results.map SourceResult.source = sources.map Prod.fst
        ∧ (results.any (fun r => containsFailed r.status) = true
            ↔ ∃ p ∈ sources, ∃ msg, p.2.outcome = ExtractOutcome.exn msg) := by
  intro sources
  induction sources with
  | nil =>
    intro store
    refine ⟨store, [], rfl, rfl, rfl, ?_⟩
    simp
  | cons p rest ih =>
    intro store
    obtain ⟨name, src⟩ := p
    obtain ⟨st1, r, hrun, hsrc, hiff⟩ := runExtractor_loader_ok cm store name src ts
    obtain ⟨st2, rs, hloop, hlen, hmap, hiff2⟩ := ih st1
    refine ⟨st2, r :: rs, ?_, by simp [hlen], by simp [hmap, hsrc], ?_⟩
    · simp only [runLoop, hrun, hloop]
    · simp only [List.any_cons, Bool.or_eq_true, hiff, hiff2]
      constructor
      · rintro (⟨msg, hmsg⟩ | ⟨q, hq, msg, hmsg⟩)
        · exact ⟨(name, src), by simp, msg, hmsg⟩
        · exact ⟨q, by simp [hq], msg, hmsg⟩
      · rintro ⟨q, hq, msg, hmsg⟩
        rcases List.mem_cons.mp hq with rfl | hq'
        · exact Or.inl ⟨msg, hmsg⟩
        · exact Or.inr ⟨q, hq', msg, hmsg⟩

/-- Claim C3 as amended: in non-dry-run mode (a loader is present), the
orchestrator runs every selected source even when an earlier one fails,
aggregates one result per source keyed by source name, and the process
exit is a failure indicator iff at least one source ended in the failed
state.  (In dry-run mode the run instead crashes at its first source —
see the counterexample and claim C8.) -/
theorem run_summary_amended (cm : List (String × List Bool))
    (sources : List (String × SourceSpec)) (store : Store) (ts : Nat) :
    ∃ st results exitF,
      pipelineRun cm sources false store ts = Except.ok ⟨st, results, exitF⟩
        ∧ results.length = sources.length
        ∧ results.map SourceResult.source = sources.map Prod.fst
        ∧ (exitF = true ↔ ∃ p ∈ sources, ∃ msg, p.2.outcome = ExtractOutcome.exn msg) := by
  obtain ⟨st, results, hloop, hlen, hmap, hiff⟩ := runLoop_loader_ok cm ts sources store
  refine ⟨st, results, results.any (fun r => containsFailed r.status), ?_, hlen, hmap, hiff⟩
  simp only [pipelineRun, Bool.not_false, hloop]

/-! #### Claim C2 — retry classification and policy -/

/-- Claim C2, counterexample: an HTTP 500 response — transient per the
claim — raises `requests.HTTPError` via `raise_for_status()`, an exception
type absent from the tenacity retry predicate, so the request is NOT
retried: exactly one underlying attempt is made instead of the claimed
`max_retries = 3`, and the error surfaces immediately.  (The same holds
for HTTP 429.) -/
theorem retry_classification_counterexample :
    makeRequest
        (fun _ => (Except.error (ReqError.httpError 500) : Except ReqError Unit))
        maxRetriesDefault
      = (Except.error (ReqError.httpError 500), 1)
      ∧ (1 : Nat) ≠ maxRetriesDefault :=
  ⟨rfl, by decide⟩

theorem retryFrom_exhausts {α : Type} (call : Nat → Except ReqError α) :
    ∀ (rem : Nat), 1 ≤ rem → ∀ (i : Nat) (e : ReqError),
      (∀ j, j < rem → ∃ ej, call (i + j) = Except.error ej ∧ retryable ej = true) →
      call (i + rem - 1) = Except.error e →
      retryFrom call rem i = (Except.error e, i + rem) := by
  intro rem
  induction rem with
  | zero => intro h; exact absurd h (by decide)
  | succ r ih =>
    intro _ i e hall hlast
    obtain ⟨e0, he0, hret0⟩ := hall 0 (by omega)
    rw [Nat.add_zero] at he0
    cases r with
    | zero =>
      rw [show i + 1 - 1 = i by omega] at hlast
      rw [he0] at hlast
      have he : e0 = e := by
        injection hlast
      subst he
      simp [retryFrom, he0]
    | succ r' =>
      have step : retryFrom call (r' + 1 + 1) i = retryFrom call (r' + 1) (i + 1) := by
        simp [retryFrom, he0, hret0]
      rw [step, show i + (r' + 1 + 1) = (i + 1) + (r' + 1) by omega]
      apply ih (by omega) (i + 1) e
      · intro j hj
        obtain ⟨ej, hej, hr⟩ := hall (j + 1) (by omega)
        rw [show i + 1 + j = i + (j + 1) by omega]
        exact ⟨ej, hej, hr⟩
      · rw [show i + 1 + (r' + 1) - 1 = i + (r' + 1 + 1) - 1 by omega]
        exact hlast

/-- Claim C2 as amended: only connection failures and timeouts are
classified transient and retried — with the `wait_exponential(multiplier=1,
min=2, max=30)` backoff, whose delays are non-decreasing, at least 2s and
capped at 30s — up to `settings.max_retries` attempts (default 3), the last
transient failure being re-raised unchanged in kind on exhaustion; every
other failure (HTTP errors of any status, including 5xx and 429, and a
malformed response) surfaces immediately after a single attempt. -/
theorem retry_policy_amended {α : Type} (call : Nat → Except ReqError α)
    (n : Nat) (e : ReqError) :
    (retryable ReqError.timeout = true ∧ retryable ReqError.connectionError = true
      ∧ (∀ s, retryable (ReqError.httpError s) = false)
      ∧ retryable ReqError.malformed = false)
    ∧ (∀ k, waitExponentialDelay k ≤ waitExponentialDelay (k + 1)
        ∧ 2 ≤ waitExponentialDelay k ∧ waitExponentialDelay k ≤ 30)
    ∧ (call 0 = Except.error e → retryable e = false →
        makeRequest call n = (Except.error e, 1))
    ∧ (1 ≤ n → (∀ i, i < n → ∃ ei, call i = Except.error ei ∧ retryable ei = true) →
        call (n - 1) = Except.error e →
        makeRequest call n = (Except.error e, n))
    ∧ maxRetriesDefault = 3 := by
  refine ⟨⟨rfl, rfl, fun s => rfl, rfl⟩, ?_, ?_, ?_, rfl⟩
  · intro k
    refine ⟨?_, ?_, min_le_left 30 _⟩
    · exact min_le_min (le_refl 30)
        (max_le_max (le_refl 2) (Nat.pow_le_pow_right (by decide) (Nat.le_succ k)))
    · exact le_min (by decide) (le_max_left 2 _)
  · intro h0 hret
    match n with
    | 0 => simp [makeRequest, retryFrom, h0]
    | 1 => simp [makeRequest, retryFrom, h0]
    | r + 2 => simp [makeRequest, retryFrom, h0, hret]
  · intro hn hall hlast
    have := retryFrom_exhausts call n hn 0 e
      (fun j hj => by simpa using hall j hj) (by simpa using hlast)
    simpa [makeRequest] using this

theorem retry_policy_amended_witness :
    makeRequest
        (fun i => (Except.error (if i = 0 then ReqError.timeout else ReqError.connectionError)
          : Except ReqError Unit)) 3
      = (Except.error ReqError.connectionError, 3) := by
  have h := retry_policy_amended
    (fun i => (Except.error (if i = 0 then ReqError.timeout else ReqError.connectionError)
      : Except ReqError Unit)) 3 ReqError.connectionError
  refine h.2.2.2.1 (by decide) ?_ rfl
  intro i hi
  interval_cases i
  · exact ⟨ReqError.timeout, rfl, rfl⟩
  · exact ⟨ReqError.connectionError, rfl, rfl⟩
  · exact ⟨ReqError.connectionError, rfl, rfl⟩

/-! #### Claims C4 and C6 — pagination termination -/

/-- Claim C4, counterexample: the first page is full (2 items at page size
2), the second fetch raises after the retry layer gave up — and
`extract_transactions` returns the two gathered rows as a perfectly normal
result (the `except ... break` swallows the error), instead of surfacing
the fetch-layer error to the orchestrator as a failure. -/
theorem pagination_error_counterexample :
    extractTransactions
        (fun _ page => if page = 1
          then FetchOutcome.resp "1" "OK" [⟨"0xaaa", 100⟩, ⟨"0xbbb", 101⟩]
          else FetchOutcome.exn)
        2 0 10
      = some ([⟨"0xaaa", 100⟩, ⟨"0xbbb", 101⟩], 2) := by
  rfl

/-- Claim C4 as amended: when a fetch raises, or the returned page carries a
hard-error status (`status != "1"`), pagination stops and the rows gathered
so far are returned as a NORMAL result — the error is logged and swallowed
inside `extract_transactions`, so the orchestrator never sees a failure
from it and records the partial rows as a success (or `empty` when nothing
was gathered). -/
theorem pagination_error_swallowed_amended (fetch : Nat → Nat → FetchOutcome)
    (pageSize fuel curBlock page calls : Nat) (acc : List RawTx)
    (status msg : String) (res : List RawTx) :
    (fetch curBlock page = FetchOutcome.exn →
      extractLoop fetch pageSize (fuel + 1) curBlock page acc calls
        = some (acc, calls + 1))
    ∧ (fetch curBlock page = FetchOutcome.resp status msg res → status ≠ "1" →
        extractLoop fetch pageSize (fuel + 1) curBlock page acc calls
          = some (acc, calls + 1)) := by
  constructor
  · intro h
    simp [extractLoop, h]
  · intro h hs
    simp [extractLoop, h, hs]

theorem pagination_error_swallowed_amended_witness :
    extractLoop (fun _ _ => FetchOutcome.exn) 2 5 0 1 [] 0 = some ([], 1)
    ∧ extractLoop (fun _ _ => FetchOutcome.resp "0" "NOTOK" []) 2 5 0 1 [] 0
        = some ([], 1) :=
  ⟨(pagination_error_swallowed_amended (fun _ _ => FetchOutcome.exn)
      2 4 0 1 0 [] "x" "y" []).1 rfl,
   (pagination_error_swallowed_amended (fun _ _ => FetchOutcome.resp "0" "NOTOK" [])
      2 4 0 1 0 [] "0" "NOTOK" []).2 rfl (by decide)⟩

/-- Claim C6: a fetched page with strictly fewer items than the requested
page size is treated as the final page: it is still emitted (its items are
appended to the result) and no request for a further page is issued — the
loop returns after exactly this one fetch call. -/
theorem short_page_terminates (fetch : Nat → Nat → FetchOutcome)
    (pageSize fuel curBlock page calls : Nat) (acc res : List RawTx) (msg : String)
    (hfetch : fetch curBlock page = FetchOutcome.resp "1" msg res)
    (hne : res ≠ []) (hshort : res.length < pageSize) :
    extractLoop fetch pageSize (fuel + 1) curBlock page acc calls
      = some (acc ++ res, calls + 1) := by
  simp [extractLoop, hfetch, hne, hshort]

theorem short_page_terminates_witness :
    extractLoop (fun _ _ => FetchOutcome.resp "1" "OK" [⟨"0xaaa", 7⟩]) 100 3 0 1 [] 0
      = some ([⟨"0xaaa", 7⟩], 1) :=
  short_page_terminates (fun _ _ => FetchOutcome.resp "1" "OK" [⟨"0xaaa", 7⟩])
    100 2 0 1 0 [] [⟨"0xaaa", 7⟩] "OK" rfl (by decide) (by decide)

/-! #### Claim C5 — batch-internal de-duplication -/

/-- Claim C5, counterexample: both `drop_duplicates(subset=["tx_hash"])`
(etherscan) and `drop_duplicates(subset=["wallet_address"])` (dune) are
called without `keep`, so the pandas default `keep="first"` applies: of two
rows sharing a conflict key with different non-key values, the
FIRST-occurring row survives — not the last-occurring one as claimed. -/
theorem dedup_keeps_first_counterexample :
    dropDuplicates Prod.fst [("0xdup", "value1"), ("0xdup", "value2")]
        = [("0xdup", "value1")]
      ∧ dropDuplicates Prod.fst [("0xdup", "value1"), ("0xdup", "value2")]
          ≠ [("0xdup", "value2")] :=
  ⟨rfl, by decide⟩

theorem keepFirst_fold_aux (key : α → κ) [DecidableEq κ] :
    ∀ (l acc : List α) (seen : List κ),
      (∀ k, k ∈ seen ↔ ∃ y ∈ acc, key y = k) →
      List.foldl (fun acc x => if (∃ y ∈ acc, key y = key x) then acc else acc ++ [x]) acc l
        = acc ++ dropDuplicatesAux key l seen := by
  intro l
  induction l with
  | nil =>
    intro acc seen _
    simp [dropDuplicatesAux]
  | cons x xs ih =>
    intro acc seen hinv
    by_cases hx : key x ∈ seen
    · have hex : ∃ y ∈ acc, key y = key x := (hinv (key x)).mp hx
      simp only [List.foldl_cons, if_pos hex, dropDuplicatesAux, if_pos hx]
      exact ih acc seen hinv
    · have hex : ¬∃ y ∈ acc, key y = key x := fun h => hx ((hinv (key x)).mpr h)
      simp only [List.foldl_cons, if_neg hex, dropDuplicatesAux, if_neg hx]
      rw [ih (acc ++ [x]) (key x :: seen) ?_]
      · simp
      · intro k
        simp only [List.mem_cons, List.mem_append]
        constructor
        · rintro (rfl | hk)
          · exact ⟨x, Or.inr (Or.inl rfl), rfl⟩
          · obtain ⟨y, hy, hky⟩ := (hinv k).mp hk
            exact ⟨y, Or.inl hy, hky⟩
        · rintro ⟨y, hy | rfl | h0, hky⟩
          · exact Or.inr ((hinv k).mpr ⟨y, hy, hky⟩)
          · exact Or.inl hky.symm
          · exact absurd h0 (List.not_mem_nil y)

/-- Claim C5 as amended: the Source-level pre-filtering keeps exactly the
FIRST-occurring row (in extraction order) per conflict key and drops the
later ones: the embedded pandas `drop_duplicates` coincides with the
keep-the-first-occurrence description, so the Batch handed to the loader
contains only the first occurrence per conflict key. -/
theorem dedup_equals_keep_first_amended (key : α → κ) [DecidableEq κ]
    (l : List α) :
    dropDuplicates key l = keepFirstOccurrencePerKey key l := by
  have h := keepFirst_fold_aux key l [] []
    (by intro k; simp)
  rw [keepFirstOccurrencePerKey, h]
  simp [dropDuplicates]

/-! #### Claim C9 — staging-table naming

`temp_table = f"_temp_{table}_{int(datetime.utcnow().timestamp())}"` uses a
whole-second timestamp and no random suffix.  To settle what the name does
and does not distinguish, we first prove decimal rendering (`Nat.repr`)
injective. -/

theorem toDigitsCore_append (b : Nat) :
    ∀ (fuel n : Nat) (ds : List Char),
      Nat.toDigitsCore b fuel n ds = Nat.toDigitsCore b fuel n [] ++ ds := by
  intro fuel
  induction fuel with
  | zero =>
    intro n ds
    simp [Nat.toDigitsCore]
  | succ f ih =>
    intro n ds
    simp only [Nat.toDigitsCore]
    by_cases h : n / b = 0
    · simp [h]
    · simp only [h, if_neg h, if_false]
      rw [ih (n / b) (Nat.digitChar (n % b) :: ds),
        ih (n / b) [Nat.digitChar (n % b)], List.append_assoc]
      rfl

theorem toDigitsCore_eq_digits :
    ∀ (fuel n : Nat), 0 < n → n < fuel →
      Nat.toDigitsCore 10 fuel n [] = ((Nat.digits 10 n).map Nat.digitChar).reverse := by
  intro fuel
  induction fuel with
  | zero =>
    intro n _ h2
    exact absurd h2 (Nat.not_lt_zero n)
  | succ f ih =>
    intro n h1 h2
    have hdig : Nat.digits 10 n = n % 10 :: Nat.digits 10 (n / 10) :=
      Nat.digits_def' (by norm_num) h1
    simp only [Nat.toDigitsCore]
    by_cases h : n / 10 = 0
    · rw [if_pos h, hdig, h, Nat.digits_zero]
      rfl
    · rw [if_neg h, toDigitsCore_append 10 f (n / 10) [Nat.digitChar (n % 10)],
        ih (n / 10) (Nat.pos_of_ne_zero h) (by
          have hlt : n / 10 < n := Nat.div_lt_self h1 (by norm_num)
          omega),
        hdig]
      simp

theorem natRepr_eq_digits (n : Nat) (h : 0 < n) :
    Nat.repr n = (((Nat.digits 10 n).map Nat.digitChar).reverse).asString := by
  show (Nat.toDigits 10 n).asString = _
  unfold Nat.toDigits
  rw [toDigitsCore_eq_digits (n + 1) n h (Nat.lt_succ_self n)]

theorem digitChar_inj_of_lt {a b : Nat} (ha : a < 10) (hb : b < 10)
    (h : Nat.digitChar a = Nat.digitChar b) : a = b := by
  have key : ∀ x y : Fin 10, Nat.digitChar x.val = Nat.digitChar y.val → x = y := by
    decide
  exact congrArg Fin.val (key ⟨a, ha⟩ ⟨b, hb⟩ h)

theorem map_digitChar_inj :
    ∀ l1 l2 : List Nat, (∀ x ∈ l1, x < 10) → (∀ x ∈ l2, x < 10) →
      l1.map Nat.digitChar = l2.map Nat.digitChar → l1 = l2 := by
  intro l1
  induction l1 with
  | nil =>
    intro l2 _ _ h
    cases l2 with
    | nil => rfl
    | cons b bs => simp at h
  | cons a as ih =>
    intro l2 h1 h2 h
    cases l2 with
    | nil => simp at h
    | cons b bs =>
      simp only [List.map_cons, List.cons.injEq] at h
      have hab := digitChar_inj_of_lt (h1 a (by simp)) (h2 b (by simp)) h.1
      rw [hab,
        ih bs (fun x hx => h1 x (by simp [hx])) (fun x hx => h2 x (by simp [hx])) h.2]

theorem asString_inj {l1 l2 : List Char} (h : l1.asString = l2.asString) :
    l1 = l2 := by
  have hd : (l1.asString).data = (l2.asString).data := by rw [h]
  simpa [List.asString] using hd

theorem natRepr_pos_ne_zero {n : Nat} (hn : 0 < n) : Nat.repr n ≠ Nat.repr 0 := by
  intro h
  rw [natRepr_eq_digits n hn] at h
  have h2 : ((Nat.digits 10 n).map Nat.digitChar).reverse = ['0'] :=
    asString_inj (show ((Nat.digits 10 n).map Nat.digitChar).reverse.asString
      = (['0'] : List Char).asString from h)
  have h3 : (Nat.digits 10 n).map Nat.digitChar = ['0'] := by
    have := congrArg List.reverse h2
    simpa using this
  cases hd : Nat.digits 10 n with
  | nil =>
    rw [hd] at h3
    simp at h3
  | cons d ds =>
    rw [hd] at h3
    simp only [List.map_cons, List.cons.injEq] at h3
    have hds : ds = [] := List.map_eq_nil_iff.mp h3.2
    have hdlt : d < 10 :=
      Nat.digits_lt_base (by norm_num) (by rw [hd]; exact List.mem_cons_self d ds)
    have hd0 : d = 0 := digitChar_inj_of_lt hdlt (by norm_num) h3.1
    have hofd := Nat.ofDigits_digits 10 n
    rw [hd, hds, hd0] at hofd
    simp [Nat.ofDigits] at hofd
    omega

theorem natRepr_injective : Function.Injective Nat.repr := by
  intro m n h
  rcases Nat.eq_zero_or_pos m with rfl | hm
  · rcases Nat.eq_zero_or_pos n with rfl | hn
    · rfl
    · exact absurd h.symm (natRepr_pos_ne_zero hn)
  · rcases Nat.eq_zero_or_pos n with rfl | hn
    · exact absurd h (natRepr_pos_ne_zero hm)
    · rw [natRepr_eq_digits m hm, natRepr_eq_digits n hn] at h
      have h2 := asString_inj h
      have h3 : (Nat.digits 10 m).map Nat.digitChar
          = (Nat.digits 10 n).map Nat.digitChar := by
        have := congrArg List.reverse h2
        simpa using this
      have h4 := map_digitChar_inj (Nat.digits 10 m) (Nat.digits 10 n)
        (fun x hx => Nat.digits_lt_base (by norm_num) hx)
        (fun x hx => Nat.digits_lt_base (by norm_num) hx) h3
      have hm2 := Nat.ofDigits_digits 10 m
      rw [h4, Nat.ofDigits_digits 10 n] at hm2
      exact hm2.symm

/-- Claim C9, counterexample: two upsert calls on the same table, 0.1s and
0.9s into the same wall-clock second, compute the SAME staging-table name:
`int(datetime.utcnow().timestamp())` truncates to whole seconds and there
is no high-resolution or random suffix, so concurrent same-second calls on
one table collide. -/
theorem temp_name_same_second_collision :
    tempName "etherscan_transactions" 1700000000100000
        = tempName "etherscan_transactions" 1700000000900000
      ∧ (1700000000100000 : Nat) ≠ 1700000000900000 :=
  ⟨rfl, by decide⟩

/-- Claim C9 as amended: the staging-table name embeds only a
second-resolution timestamp (`_temp_{table}_{whole seconds}`), so two
upsert calls on the same table compute distinct staging names whenever
they start in different whole seconds — but calls starting within the same
whole second on the same table collide (see the counterexample). -/
theorem string_append_right_inj (a : String) {x y : String}
    (h : a ++ x = a ++ y) : x = y := by
  have hd := congrArg String.data h
  simp only [String.data_append] at hd
  exact String.ext (List.append_cancel_left hd)

theorem temp_name_distinct_across_seconds (table : String) (ts1 ts2 : Nat)
    (h : ts1 / 1000000 ≠ ts2 / 1000000) :
    tempName table ts1 ≠ tempName table ts2 := by
  intro hcontra
  apply h
  apply natRepr_injective
  simp only [tempName] at hcontra
  exact string_append_right_inj ("_temp_" ++ table ++ "_") hcontra

theorem temp_name_distinct_across_seconds_witness :
    tempName "etherscan_transactions" 1700000000900000
      ≠ tempName "etherscan_transactions" 1700000001100000 :=
  temp_name_distinct_across_seconds "etherscan_transactions"
    1700000000900000 1700000001100000 (by decide)

end DefiPipeline
